import Mathlib

/-!
# Verification of the ElectrumX (Lambda) script walker and transaction deserializer

Shallow embedding of `electrumx/lib/script.py` and `electrumx/lib/tx.py`.
Byte strings are modelled as `List Nat` (each element a byte value 0..255);
machine integers are `Nat` / `Int` with explicit two's-complement conversion
where the source applies struct packing.

The Python loops walk a buffer with a cursor; here each walker is a
structurally recursive function on the remaining suffix of the script, with a
fuel argument bounded by the script length (each loop iteration consumes at
least one byte, so `fuel = length` is always sufficient; the fuel-exhaustion
branch is unreachable for the top-level entry points).
-/

set_option maxRecDepth 10000

deriving instance DecidableEq for Except

namespace ElectrumX

/-- Little-endian encoding of `n` into `w` bytes (the `struct` pack of
`<H`, `<I`, `<Q`, and the 32-byte LE u256 used by `pack_le_uint16/32/64/256`
in `electrumx.lib.util`). Modelled from the spec: "All integers are
little-endian"; the util module is not under src/. -/
def leEnc : Nat → Nat → List Nat
  | 0, _ => []
  | w + 1, n => (n % 256) :: leEnc w (n / 256)

/-- Little-endian decoding of the first `w` bytes of `b` (the `struct`
unpack counterparts `unpack_le_uint16/32/64/256_from`). Modelled from the
spec: the util module is not under src/. -/
def leDec : Nat → List Nat → Nat
  | 0, _ => 0
  | _ + 1, [] => 0
  | w + 1, x :: r => x + 256 * leDec w r

-- Byte values of the opcodes this development needs, with the numeric
-- assignments asserted in `electrumx/lib/script.py`.
namespace OpCodes

def OP_0 : Nat := 0
def OP_PUSHDATA1 : Nat := 76
def OP_PUSHDATA2 : Nat := 77
def OP_PUSHDATA4 : Nat := 78
def OP_RETURN : Nat := 106
def OP_CHECKSIG : Nat := 172
def OP_CHECKSIGVERIFY : Nat := 173
def OP_CHECKMULTISIG : Nat := 174
def OP_CHECKMULTISIGVERIFY : Nat := 175
def OP_PUSHINPUTREF : Nat := 208
def OP_REQUIREINPUTREF : Nat := 209
def OP_DISALLOWPUSHINPUTREF : Nat := 210
def OP_DISALLOWPUSHINPUTREFSIBLING : Nat := 211
def OP_PUSHINPUTREFSINGLETON : Nat := 216

end OpCodes

/-- One item of `Script.get_ops`' result: the Python list holds either a bare
opcode (an `int`) or an `(opcode, payload)` tuple. -/
inductive OpItem where
  | bare : Nat → OpItem
  | push : Nat → List Nat → OpItem
deriving DecidableEq, Repr

namespace Script

open OpCodes

/-- The inner `dlen` computation shared verbatim by the push branches of
`Script.get_ops`, `Script.get_push_input_refs` and `Script.zero_refs`
(script.py lines 218-228, 261-271, 317-327): given an opcode `op ≤
OP_PUSHDATA4` and the bytes following it, return the declared payload length
and the remaining bytes after any length prefix, or `none` when the length
prefix itself is truncated (Python raises `IndexError` / `struct.error`
there).  The chain `op < 76 / op = 76 / op = 77 / op = 78` is exhaustive for
`op ≤ 78`; `get_ops`' additional `elif` for the five reference opcodes
(script.py line 229) is unreachable under that guard and therefore has no
branch here. -/
def pushLen (op : Nat) (rest : List Nat) : Option (Nat × List Nat) :=
  if op < OP_PUSHDATA1 then some (op, rest)
  else if op = OP_PUSHDATA1 then
    match rest with
    | [] => none
    | d :: r => some (d, r)
  else if op = OP_PUSHDATA2 then
    match rest with
    | a :: b :: r => some (a + 256 * b, r)
    | _ => none
  else
    match rest with
    | a :: b :: c :: d :: r =>
        some (a + 256 * b + 65536 * c + 16777216 * d, r)
    | _ => none

/-- The loop body of `Script.get_ops` (script.py lines 206-243), structurally
recursive on a fuel bound.  For `op ≤ OP_PUSHDATA4` the declared payload is
consumed and an `(op, payload)` item emitted; every other opcode — including
the five reference opcodes 0xd0-0xd3, 0xd8, whose `dlen = 36` branch in the
source is dead code under the `op <= OpCodes.OP_PUSHDATA4` guard — is
emitted bare and its following bytes re-enter the loop. -/
def getOpsAux : Nat → List Nat → Option (List OpItem)
  | _, [] => some []
  | 0, _ :: _ => none
  | fuel + 1, op :: rest =>
    if op ≤ OP_PUSHDATA4 then
      match pushLen op rest with
      | none => none
      | some (dlen, tail) =>
        if dlen ≤ tail.length then
          match getOpsAux fuel (tail.drop dlen) with
          | none => none
          | some items => some (OpItem.push op (tail.take dlen) :: items)
        else none
    else
      match getOpsAux fuel rest with
      | none => none
      | some items => some (OpItem.bare op :: items)

/-- `Script.get_ops`: `none` models the `ScriptError('truncated script')`
raised when any read runs past the end of the script. -/
def get_ops (script : List Nat) : Option (List OpItem) :=
  getOpsAux script.length script

/-- Is `op` one of the five reference opcodes (script.py lines 277, 334):
`OP_PUSHINPUTREF` 0xd0, `OP_REQUIREINPUTREF` 0xd1, `OP_DISALLOWPUSHINPUTREF`
0xd2, `OP_DISALLOWPUSHINPUTREFSIBLING` 0xd3, `OP_PUSHINPUTREFSINGLETON`
0xd8. -/
def isRefOp (op : Nat) : Bool :=
  op = OP_PUSHINPUTREF || op = OP_REQUIREINPUTREF ||
    op = OP_DISALLOWPUSHINPUTREF || op = OP_DISALLOWPUSHINPUTREFSIBLING ||
    op = OP_PUSHINPUTREFSINGLETON

/-- Is `op` one of the four signature-check opcodes tested by
`Script.zero_refs` (script.py line 312). -/
def isSigCheckOp (op : Nat) : Bool :=
  op = OP_CHECKSIG || op = OP_CHECKSIGVERIFY ||
    op = OP_CHECKMULTISIG || op = OP_CHECKMULTISIGVERIFY

/-- The loop body of `Script.get_push_input_refs` (script.py lines 247-296):
pushes (`op ≤ OP_PUSHDATA4`) skip their declared payload; each of the five
reference opcodes then consumes 36 payload bytes, `OP_PUSHINPUTREF` /
`OP_PUSHINPUTREFSINGLETON` contributing the payload to `all_refs` and to
`normal_refs` / `singleton_refs` respectively.  The source appends to the
accumulators before the bounds check, but the raise discards them, so
failing before collecting is observationally the same.  Result:
`(all_refs, normal_refs, singleton_refs)`. -/
def getPushInputRefsAux :
    Nat → List Nat → Option (List (List Nat) × List (List Nat) × List (List Nat))
  | _, [] => some ([], [], [])
  | 0, _ :: _ => none
  | fuel + 1, op :: rest =>
    if op ≤ OP_PUSHDATA4 then
      -- a push opcode is never a reference opcode, so the source's second
      -- `if` cannot also fire
      match pushLen op rest with
      | none => none
      | some (dlen, tail) =>
        if dlen ≤ tail.length then getPushInputRefsAux fuel (tail.drop dlen)
        else none
    else if isRefOp op then
      if 36 ≤ rest.length then
        match getPushInputRefsAux fuel (rest.drop 36) with
        | none => none
        | some (a, n, g) =>
          if op = OP_PUSHINPUTREF then
            some (rest.take 36 :: a, rest.take 36 :: n, g)
          else if op = OP_PUSHINPUTREFSINGLETON then
            some (rest.take 36 :: a, n, rest.take 36 :: g)
          else some (a, n, g)
      else none
    else getPushInputRefsAux fuel rest

/-- `Script.get_push_input_refs`: `none` models the
`ScriptError('get_push_input_refs script')` raised on truncation, so no
partial accumulator ever escapes. -/
def get_push_input_refs (script : List Nat) :
    Option (List (List Nat) × List (List Nat) × List (List Nat)) :=
  getPushInputRefsAux script.length script

/-- The loop body of `Script.zero_refs` (script.py lines 299-346).  Each
iteration appends the opcode byte to the output, sets the `requires_sig`
flag on a signature-check opcode, copies a push's payload (the PUSHDATA1/2/4
length bytes are consumed but NOT copied — source lines 319-327 advance `n`
without touching `ops`), and replaces a reference opcode's 36-byte payload
by 36 zero bytes.  Returns the rewritten buffer paired with the flag. -/
def zeroRefsAux : Nat → List Nat → Option (List Nat × Bool)
  | _, [] => some ([], false)
  | 0, _ :: _ => none
  | fuel + 1, op :: rest =>
    if op ≤ OP_PUSHDATA4 then
      match pushLen op rest with
      | none => none
      | some (dlen, tail) =>
        if dlen ≤ tail.length then
          match zeroRefsAux fuel (tail.drop dlen) with
          | none => none
          | some (out, flag) =>
            some ((op :: tail.take dlen) ++ out, isSigCheckOp op || flag)
        else none
    else if isRefOp op then
      if 36 ≤ rest.length then
        match zeroRefsAux fuel (rest.drop 36) with
        | none => none
        | some (out, flag) =>
          some ((op :: List.replicate 36 0) ++ out, isSigCheckOp op || flag)
      else none
    else
      match zeroRefsAux fuel rest with
      | none => none
      | some (out, flag) => some (op :: out, isSigCheckOp op || flag)

/-- `Script.zero_refs`: on success the source returns the rewritten buffer
when `requires_sig` was set and the original script otherwise (script.py
lines 348-350). -/
def zero_refs (script : List Nat) : Option (List Nat) :=
  match zeroRefsAux script.length script with
  | none => none
  | some (ops, requiresSig) => some (if requiresSig then ops else script)

/-- The opcode positions of the walk shared by `Script.zero_refs` and
`Script.get_push_input_refs` (identical framing: pushes skip their declared
payload, reference opcodes skip 36 payload bytes): the list of opcode bytes
read at the start of each loop iteration. -/
def opcodeWalkAux : Nat → List Nat → Option (List Nat)
  | _, [] => some []
  | 0, _ :: _ => none
  | fuel + 1, op :: rest =>
    if op ≤ OP_PUSHDATA4 then
      match pushLen op rest with
      | none => none
      | some (dlen, tail) =>
        if dlen ≤ tail.length then
          match opcodeWalkAux fuel (tail.drop dlen) with
          | none => none
          | some l => some (op :: l)
        else none
    else if isRefOp op then
      if 36 ≤ rest.length then
        match opcodeWalkAux fuel (rest.drop 36) with
        | none => none
        | some l => some (op :: l)
      else none
    else
      match opcodeWalkAux fuel rest with
      | none => none
      | some l => some (op :: l)

/-- Opcode bytes of a script under the `zero_refs` framing. -/
def opcodeWalk (script : List Nat) : Option (List Nat) :=
  opcodeWalkAux script.length script

/-- Position mask for the same walk: one Boolean per consumed input byte,
`true` exactly at the 36 payload bytes of each reference-opcode occurrence
(`false` at opcode bytes, PUSHDATA length bytes and push payload bytes). -/
def refMaskAux : Nat → List Nat → Option (List Bool)
  | _, [] => some []
  | 0, _ :: _ => none
  | fuel + 1, op :: rest =>
    if op ≤ OP_PUSHDATA4 then
      match pushLen op rest with
      | none => none
      | some (dlen, tail) =>
        if dlen ≤ tail.length then
          match refMaskAux fuel (tail.drop dlen) with
          | none => none
          | some m =>
            some (List.replicate (1 + (rest.length - tail.length) + dlen) false
              ++ m)
        else none
    else if isRefOp op then
      if 36 ≤ rest.length then
        match refMaskAux fuel (rest.drop 36) with
        | none => none
        | some m => some ((false :: List.replicate 36 true) ++ m)
      else none
    else
      match refMaskAux fuel rest with
      | none => none
      | some m => some (false :: m)

/-- Reference-payload mask of a script under the `zero_refs` framing. -/
def refMask (script : List Nat) : Option (List Bool) :=
  refMaskAux script.length script

/-- The byte contribution of a `get_ops` item: the opcode byte followed by
the payload when the item is an `(opcode, payload)` pair. -/
def flattenOps : List OpItem → List Nat
  | [] => []
  | OpItem.bare op :: rest => op :: flattenOps rest
  | OpItem.push op pl :: rest => op :: (pl ++ flattenOps rest)

/-- Zero a byte exactly where the mask bit is set. -/
def maskZero (t : Bool) (b : Nat) : Nat := if t then 0 else b

/-- Is `op` one of `OP_PUSHDATA1`, `OP_PUSHDATA2`, `OP_PUSHDATA4`. -/
def isPushdataOp (op : Nat) : Bool :=
  op = OP_PUSHDATA1 || op = OP_PUSHDATA2 || op = OP_PUSHDATA4

/-- No `(opcode, payload)` item of the list carries a PUSHDATA1/2/4 opcode
(its push items are all direct pushes `0..75`). -/
def noPushdataItems (items : List OpItem) : Bool :=
  items.all (fun i => match i with
    | OpItem.push op _ => decide (op < OP_PUSHDATA1)
    | OpItem.bare _ => true)

/-- `a` is the encounter-order interleaving of `n` and `g`: each element of
`a` comes from exactly one of `n` and `g`, both in order. -/
inductive Interleaved :
    List (List Nat) → List (List Nat) → List (List Nat) → Prop where
  | nil : Interleaved [] [] []
  | norm (x : List Nat) {a n g : List (List Nat)} :
      Interleaved a n g → Interleaved (x :: a) (x :: n) g
  | single (x : List Nat) {a n g : List (List Nat)} :
      Interleaved a n g → Interleaved (x :: a) n (x :: g)

end Script

/-- The Python exception class raised by a `Deserializer` read primitive that
runs past the end of the buffer: `binary[cursor]` raises `IndexError`
(tx.py lines 307, 319), the `assert` in `_read_nbytes` raises
`AssertionError` (tx.py line 312), and the `struct` unpackers behind the
fixed-width readers raise `struct.error` (tx.py lines 329-362, via
`electrumx.lib.util`). -/
inductive PyErr where
  | indexError
  | assertionError
  | structError
deriving DecidableEq, Repr

/-- Two's-complement reading of a `w`-byte unsigned value (how `struct`'s
`<i` / `<q` interpret the same bytes as `<I` / `<Q`). -/
def toSigned (w n : Nat) : Int :=
  if 2 * n < 256 ^ w then (n : Int) else (n : Int) - (256 ^ w : Nat)

/-- `TxOutPoint` record (tx.py line 98). -/
structure TxOutPoint where
  hash : List Nat
  index : Nat
deriving DecidableEq, Repr

/-- `TxContractOutput` record (tx.py line 108). -/
structure TxContractOutput where
  type : Nat
  outpoint : TxOutPoint
  value : Nat
  max_supply : Nat
  metadata : List Nat
deriving DecidableEq, Repr

/-- `TxOutput` record (tx.py line 82).  `value` is the `int` produced by
`_read_le_int64`, hence signed. -/
structure TxOutput where
  value : Int
  pk_script : List Nat
  contract : Option TxContractOutput
deriving DecidableEq, Repr

/-- `TxInput` record (tx.py line 60). -/
structure TxInput where
  prev_hash : List Nat
  prev_idx : Nat
  script : List Nat
  sequence : Nat
deriving DecidableEq, Repr

/-- `Tx` record (tx.py line 46). -/
structure Tx where
  version : Int
  inputs : List TxInput
  outputs : List TxOutput
  locktime : Nat
deriving DecidableEq, Repr

/-- Modelled from the spec: `CONTRACT_FLAG` lives in `electrumx.lib.util`,
which is not under src/; per spec §3/§6 it is "a high bit of the 64-bit
tag" distinguishing contract outputs. -/
def CONTRACT_FLAG : Nat := 2 ^ 63

/-- Modelled from the spec: `MAX_CONTRACT_TYPE` (from `electrumx.lib.util`,
not under src/) "bounds" the 64-bit tag; the four defined contract types sit
just above the flag bit. -/
def MAX_CONTRACT_TYPE : Nat := CONTRACT_FLAG + 4

/-- The contract sniff of `Deserializer._read_output` (tx.py line 280):
`contract_type & CONTRACT_FLAG and MAX_CONTRACT_TYPE >= contract_type`. -/
def isContractTag (tag : Nat) : Bool :=
  decide (tag &&& CONTRACT_FLAG ≠ 0) && decide (tag ≤ MAX_CONTRACT_TYPE)

/-- Modelled from the spec: `pack_varint` from `electrumx.lib.util` (not
under src/); spec §4.1/§6: "Varints follow the Bitcoin convention" — one
byte below 253, else a 253/254/255 marker followed by a LE u16/u32/u64. -/
def packVarint (n : Nat) : List Nat :=
  if n < 253 then [n]
  else if n < 65536 then 253 :: leEnc 2 n
  else if n < 4294967296 then 254 :: leEnc 4 n
  else 255 :: leEnc 8 n

/-- Modelled from the spec: `pack_varbytes` from `electrumx.lib.util` (not
under src/); glossary: "a varint length followed by that many bytes". -/
def packVarbytes (data : List Nat) : List Nat :=
  packVarint data.length ++ data

/-- `pack_le_int32` / `pack_le_int64`: two's-complement little-endian bytes
of `v`, which for in-range `v` is `v mod 256^w` (`struct` raises on values
outside `[-256^w/2, 256^w/2)`; well-formedness keeps `v` in range). -/
def packLeInt (w : Nat) (v : Int) : List Nat :=
  leEnc w (v % ((256 : Int) ^ w)).toNat

/-- `TxInput.serialize` (tx.py lines 73-79). -/
def TxInput.serialize (t : TxInput) : List Nat :=
  t.prev_hash ++ leEnc 4 t.prev_idx ++ packVarbytes t.script ++
    leEnc 4 t.sequence

/-- `TxOutPoint.serialize` (tx.py lines 99-103). -/
def TxOutPoint.serialize (t : TxOutPoint) : List Nat :=
  t.hash ++ leEnc 4 t.index

/-- `TxContractOutput.serialize` (tx.py lines 109-116). -/
def TxContractOutput.serialize (c : TxContractOutput) : List Nat :=
  leEnc 8 c.type ++ c.outpoint.serialize ++ leEnc 32 c.value ++
    leEnc 32 c.max_supply ++ packVarbytes c.metadata

/-- `TxOutput.serialize` (tx.py lines 84-95): the contract path packs
`value` as LE u64 (`pack_le_uint64`, which requires `0 ≤ value < 2^64` —
hence `toNat`), the ordinary path as LE i64. -/
def TxOutput.serialize (t : TxOutput) : List Nat :=
  match t.contract with
  | some c => c.serialize ++ leEnc 8 t.value.toNat ++ packVarbytes t.pk_script
  | none => packLeInt 8 t.value ++ packVarbytes t.pk_script

/-- `Tx.serialize` (tx.py lines 49-57). -/
def Tx.serialize (tx : Tx) : List Nat :=
  packLeInt 4 tx.version ++ packVarint tx.inputs.length ++
    (tx.inputs.map TxInput.serialize).flatten ++
    packVarint tx.outputs.length ++
    (tx.outputs.map TxOutput.serialize).flatten ++
    leEnc 4 tx.locktime

namespace Deserializer

/-- `Deserializer._read_byte` (tx.py lines 304-307): `binary[cursor]` raises
`IndexError` past the end.  The cursor-over-buffer state is modelled by
consuming from the front of the remaining bytes. -/
def read_byte (b : List Nat) : Except PyErr (Nat × List Nat) :=
  match b with
  | [] => .error .indexError
  | x :: r => .ok (x, r)

/-- `Deserializer._read_nbytes` (tx.py lines 309-313): the slice never
raises, but `assert binary_length >= end` raises `AssertionError` when the
read would pass the end. -/
def read_nbytes (n : Nat) (b : List Nat) : Except PyErr (List Nat × List Nat) :=
  if n ≤ b.length then .ok (b.take n, b.drop n) else .error .assertionError

/-- The fixed-width little-endian readers `_read_le_uint16/32/64` and
`_read_uint256` (tx.py lines 339-362), for byte widths 2/4/8/32: `struct`'s
`unpack_from` raises `struct.error` when fewer than `w` bytes remain. -/
def read_le_uint (w : Nat) (b : List Nat) : Except PyErr (Nat × List Nat) :=
  if w ≤ b.length then .ok (leDec w b, b.drop w) else .error .structError

/-- `_read_le_int32` / `_read_le_int64` (tx.py lines 329-337) for byte
widths 4/8: same bytes as `read_le_uint`, interpreted two's-complement. -/
def read_le_int (w : Nat) (b : List Nat) : Except PyErr (Int × List Nat) :=
  match read_le_uint w b with
  | .error e => .error e
  | .ok (n, r) => .ok (toSigned w n, r)

/-- `Deserializer._read_varint` (tx.py lines 318-327): the lead byte is read
by direct indexing (`IndexError` when empty), the wide forms by the
fixed-width readers. -/
def read_varint (b : List Nat) : Except PyErr (Nat × List Nat) :=
  match b with
  | [] => .error .indexError
  | n :: r =>
    if n < 253 then .ok (n, r)
    else if n = 253 then read_le_uint 2 r
    else if n = 254 then read_le_uint 4 r
    else read_le_uint 8 r

/-- `Deserializer._read_varbytes` (tx.py lines 315-316). -/
def read_varbytes (b : List Nat) : Except PyErr (List Nat × List Nat) := do
  let (n, b1) ← read_varint b
  read_nbytes n b1

/-- `Deserializer._read_outpoint` (tx.py lines 289-293). -/
def read_outpoint (b : List Nat) : Except PyErr (TxOutPoint × List Nat) := do
  let (h, b1) ← read_nbytes 32 b
  let (i, b2) ← read_le_uint 4 b1
  .ok (⟨h, i⟩, b2)

/-- `Deserializer._read_contract_out` (tx.py lines 295-302). -/
def read_contract_out (b : List Nat) :
    Except PyErr (TxContractOutput × List Nat) := do
  let (ty, b1) ← read_le_uint 8 b
  let (op, b2) ← read_outpoint b1
  let (v, b3) ← read_le_uint 32 b2
  let (ms, b4) ← read_le_uint 32 b3
  let (md, b5) ← read_varbytes b4
  .ok (⟨ty, op, v, ms, md⟩, b5)

/-- `Deserializer._read_output` (tx.py lines 276-287): peek a LE u64 tag
with the cursor restored afterwards; when the tag sniffs as a contract,
first consume a `TxContractOutput`; then — on both paths — read the value
with `_read_le_int64` (signed) and the script as varbytes. -/
def read_output (b : List Nat) : Except PyErr (TxOutput × List Nat) := do
  let (tag, _) ← read_le_uint 8 b
  let (contract_out, b1) ←
    if isContractTag tag then
      match read_contract_out b with
      | .error e => Except.error e
      | .ok (c, r) => Except.ok (some c, r)
    else Except.ok ((none : Option TxContractOutput), b)
  let (v, b2) ← read_le_int 8 b1
  let (pk, b3) ← read_varbytes b2
  .ok (⟨v, pk, contract_out⟩, b3)

/-- `[read() for _ in range(k)]`: read `k` records in sequence. -/
def readCount {α : Type} (read : List Nat → Except PyErr (α × List Nat)) :
    Nat → List Nat → Except PyErr (List α × List Nat)
  | 0, b => .ok ([], b)
  | k + 1, b => do
    let (x, b1) ← read b
    let (xs, b2) ← readCount read k b1
    .ok (x :: xs, b2)

/-- `Deserializer._read_input` (tx.py lines 264-270). -/
def read_input (b : List Nat) : Except PyErr (TxInput × List Nat) := do
  let (h, b1) ← read_nbytes 32 b
  let (i, b2) ← read_le_uint 4 b1
  let (s, b3) ← read_varbytes b2
  let (sq, b4) ← read_le_uint 4 b3
  .ok (⟨h, i, s, sq⟩, b4)

/-- `Deserializer._read_inputs` (tx.py lines 260-262). -/
def read_inputs (b : List Nat) : Except PyErr (List TxInput × List Nat) := do
  let (k, b1) ← read_varint b
  readCount read_input k b1

/-- `Deserializer._read_outputs` (tx.py lines 272-274). -/
def read_outputs (b : List Nat) : Except PyErr (List TxOutput × List Nat) := do
  let (k, b1) ← read_varint b
  readCount read_output k b1

/-- `Deserializer.read_tx` (tx.py lines 151-158). -/
def read_tx (b : List Nat) : Except PyErr (Tx × List Nat) := do
  let (v, b1) ← read_le_int 4 b
  let (ins, b2) ← read_inputs b1
  let (outs, b3) ← read_outputs b2
  let (lt, b4) ← read_le_uint 4 b3
  .ok (⟨v, ins, outs, lt⟩, b4)

/-- `Deserializer.get_state` (tx.py lines 204-221): decode a LE u32
`stateLen` starting 5 bytes from the end (`pc -= 5`, so the final byte — the
comment's "version" byte — sits after the length), require
`len ≥ 1 + stateLen + 4 + 1`, then require `OP_RETURN` just before the
state bytes.  `none` models the `False` return; the source's `script[pc-1]`
index is in bounds whenever reached because the length requirement gives
`pc ≥ 1`. -/
def get_state (script : List Nat) : Option Nat :=
  if script.length < 1 + 0 + 4 + 1 then none
  else
    let pc := script.length - 5
    let stateLen := leDec 4 (script.drop pc)
    if script.length < 1 + stateLen + 4 + 1 then none
    else
      let pc2 := pc - stateLen
      if script.getD (pc2 - 1) 0 = OpCodes.OP_RETURN then some pc2 else none

/-- `Deserializer.get_hashinputs` (tx.py lines 189-202), parametric in the
external `sha256` primitive (out of scope per the spec; treated as a given
byte→byte function). -/
def get_hashinputs (sha : List Nat → List Nat) (tx : Tx) : List Nat :=
  sha ((tx.inputs.map (fun txin =>
    sha (txin.prev_hash ++ leEnc 4 txin.prev_idx ++ sha txin.script ++
      leEnc 4 txin.sequence))).flatten)

/-- `Deserializer.get_hashoutputs` (tx.py lines 223-248): per output,
optionally the contract serialization, then `pack_le_uint64(value)` (which
requires `0 ≤ value < 2^64`, hence `toNat`) and `sha256(pk_script)`, plus
the two split hashes when `get_state` finds a state separator (`if pc:` —
`get_state` never returns a `0` split point, see `get_state`). -/
def get_hashoutputs (sha : List Nat → List Nat) (tx : Tx) : List Nat :=
  sha ((tx.outputs.map (fun txout =>
    sha ((match txout.contract with
          | some c => c.serialize
          | none => []) ++
      leEnc 8 txout.value.toNat ++ sha txout.pk_script ++
      (match get_state txout.pk_script with
       | some pc => sha (txout.pk_script.take pc) ++
           sha (txout.pk_script.drop pc)
       | none => [])))).flatten)

/-- `Deserializer.get_richtransaction` (tx.py lines 174-187):
`pack_le_uint32(version)` (requiring `0 ≤ version < 2^32`, hence `toNat`;
only reached with version 2), `pack_le_int32` of the two counts, and the
two layered hashes, all double-hashed. -/
def get_richtransaction (sha dsha : List Nat → List Nat) (tx : Tx) :
    List Nat :=
  dsha (leEnc 4 tx.version.toNat ++ packLeInt 4 (tx.inputs.length : Int) ++
    get_hashinputs sha tx ++ packLeInt 4 (tx.outputs.length : Int) ++
    get_hashoutputs sha tx ++ leEnc 4 tx.locktime)

/-- `Deserializer.read_tx_and_hash` (tx.py lines 160-172): the hash is the
rich-transaction digest for version-2 transactions and the double-sha of
the consumed byte span otherwise. -/
def read_tx_and_hash (sha dsha : List Nat → List Nat) (b : List Nat) :
    Except PyErr ((Tx × List Nat) × List Nat) := do
  let (tx, b1) ← read_tx b
  let consumed := b.take (b.length - b1.length)
  if tx.version = 2 then .ok ((tx, get_richtransaction sha dsha tx), b1)
  else .ok ((tx, dsha consumed), b1)

/-- `Deserializer.read_tx_block` (tx.py lines 254-258). -/
def read_tx_block (sha dsha : List Nat → List Nat) (b : List Nat) :
    Except PyErr (List (Tx × List Nat) × List Nat) := do
  let (k, b1) ← read_varint b
  readCount (read_tx_and_hash sha dsha) k b1

end Deserializer

/-- Every element is a byte value. -/
def bytesOk (l : List Nat) : Bool := l.all (fun x => decide (x < 256))

/-- Well-formed `TxOutPoint`: in-range field values (a 32-byte hash and a
u32 index, as `TxOutPoint.serialize` packs them). -/
def TxOutPoint.wf (t : TxOutPoint) : Bool :=
  decide (t.hash.length = 32) && bytesOk t.hash && decide (t.index < 2 ^ 32)

/-- Well-formed `TxContractOutput`: in-range field values for
`TxContractOutput.serialize` (u64 type, u256 value and max_supply, varbytes
metadata). -/
def TxContractOutput.wf (c : TxContractOutput) : Bool :=
  decide (c.type < 2 ^ 64) && c.outpoint.wf && decide (c.value < 2 ^ 256) &&
    decide (c.max_supply < 2 ^ 256) && bytesOk c.metadata &&
    decide (c.metadata.length < 2 ^ 64)

/-- Well-formed `TxOutput` per the claim: in-range field values (i64 value
on the ordinary path, u64 value on the contract path), a contract output
carrying a tag that satisfies the contract predicate, and a non-contract
output whose leading wire bytes (the two's-complement LE u64 reading of its
value field) do not. -/
def TxOutput.wf (t : TxOutput) : Bool :=
  bytesOk t.pk_script && decide (t.pk_script.length < 2 ^ 64) &&
    (match t.contract with
     | some c => c.wf && isContractTag c.type && decide (0 ≤ t.value) &&
         decide (t.value < (2 : Int) ^ 64)
     | none => decide (-((2 : Int) ^ 63) ≤ t.value) &&
         decide (t.value < (2 : Int) ^ 63) &&
         !isContractTag ((t.value % ((2 : Int) ^ 64)).toNat))

/-- Well-formed `TxInput`: in-range field values for `TxInput.serialize`. -/
def TxInput.wf (t : TxInput) : Bool :=
  decide (t.prev_hash.length = 32) && bytesOk t.prev_hash &&
    decide (t.prev_idx < 2 ^ 32) && bytesOk t.script &&
    decide (t.script.length < 2 ^ 64) && decide (t.sequence < 2 ^ 32)

/-- Well-formed `Tx`: in-range field values throughout. -/
def Tx.wf (tx : Tx) : Bool :=
  decide (-((2 : Int) ^ 31) ≤ tx.version) && decide (tx.version < (2 : Int) ^ 31) &&
    decide (tx.inputs.length < 2 ^ 64) && decide (tx.outputs.length < 2 ^ 64) &&
    decide (tx.locktime < 2 ^ 32) && tx.inputs.all TxInput.wf &&
    tx.outputs.all TxOutput.wf

/-! ## Little-endian encoding lemmas -/

theorem leEnc_length (w n : Nat) : (leEnc w n).length = w := by
  induction w generalizing n with
  | zero => rfl
  | succ w ih => simp [leEnc, ih]

theorem leDec_leEnc_append (w n : Nat) (r : List Nat) (h : n < 256 ^ w) :
    leDec w (leEnc w n ++ r) = n := by
  induction w generalizing n with
  | zero => simpa [leEnc, leDec] using (Nat.lt_one_iff.mp h).symm
  | succ w ih =>
      have hdiv : n / 256 < 256 ^ w := by
        rw [Nat.div_lt_iff_lt_mul (by norm_num)]
        calc n < 256 ^ (w + 1) := h
        _ = 256 ^ w * 256 := by ring
      simp [leEnc, leDec, ih (n / 256) hdiv]
      omega

theorem leEnc_append_drop (w n : Nat) (r : List Nat) :
    (leEnc w n ++ r).drop w = r := by
  rw [List.drop_append_of_le_length (by simp [leEnc_length])]
  simp [leEnc_length]

/-! ## Deserializer primitive round trips -/

namespace Deserializer

theorem read_le_uint_enc (w n : Nat) (r : List Nat) (h : n < 256 ^ w) :
    read_le_uint w (leEnc w n ++ r) = .ok (n, r) := by
  unfold read_le_uint
  rw [if_pos (by simp [leEnc_length]), leDec_leEnc_append w n r h,
    leEnc_append_drop]

theorem toSigned_toNat (w : Nat) (v : Int) (h0 : 0 ≤ v)
    (h : 2 * v < ((256 ^ w : Nat) : Int)) : toSigned w v.toNat = v := by
  unfold toSigned
  rw [if_pos (by omega)]
  omega

theorem read_le_int_packLeInt (w : Nat) (v : Int) (r : List Nat)
    (hlo : -((256 ^ w : Nat) : Int) ≤ 2 * v)
    (hhi : 2 * v < ((256 ^ w : Nat) : Int)) :
    read_le_int w (packLeInt w v ++ r) = .ok (v, r) := by
  have hM : (0 : Int) < ((256 ^ w : Nat) : Int) := by positivity
  have hcast : ((256 : Int) ^ w) = ((256 ^ w : Nat) : Int) := by push_cast; ring
  have hmod : v % ((256 : Int) ^ w) =
      if 0 ≤ v then v else v + ((256 ^ w : Nat) : Int) := by
    rw [hcast]
    split
    · exact Int.emod_eq_of_lt (by assumption) (by omega)
    · have h2 : (v + ((256 ^ w : Nat) : Int)) % ((256 ^ w : Nat) : Int) =
          v % ((256 ^ w : Nat) : Int) := by
        have h3 := Int.add_mul_emod_self_left v ((256 ^ w : Nat) : Int) 1
        rwa [mul_one] at h3
      rw [← h2]
      exact Int.emod_eq_of_lt (by omega) (by omega)
  have hlt : (v % ((256 : Int) ^ w)).toNat < 256 ^ w := by
    rw [hmod]; split <;> omega
  have hu := read_le_uint_enc w (v % ((256 : Int) ^ w)).toNat r hlt
  simp only [read_le_int, packLeInt, hu]
  suffices h : toSigned w (v % ((256 : Int) ^ w)).toNat = v by rw [h]
  unfold toSigned
  rw [hmod]
  by_cases h0 : 0 ≤ v
  · rw [if_pos h0, if_pos (by omega)]
    omega
  · rw [if_neg h0, if_neg (by omega)]
    omega

theorem read_nbytes_exact (d r : List Nat) :
    read_nbytes d.length (d ++ r) = .ok (d, r) := by
  unfold read_nbytes
  rw [if_pos (by simp), List.take_left, List.drop_left]

theorem read_varint_packVarint (n : Nat) (r : List Nat) (h : n < 2 ^ 64) :
    read_varint (packVarint n ++ r) = .ok (n, r) := by
  unfold packVarint
  by_cases h1 : n < 253
  · simp [read_varint, h1]
  · by_cases h2 : n < 65536
    · rw [if_neg h1, if_pos h2]
      show read_varint (253 :: (leEnc 2 n ++ r)) = _
      simp only [read_varint]
      norm_num
      exact read_le_uint_enc 2 n r (by omega)
    · by_cases h3 : n < 4294967296
      · rw [if_neg h1, if_neg h2, if_pos h3]
        show read_varint (254 :: (leEnc 4 n ++ r)) = _
        simp only [read_varint]
        norm_num
        exact read_le_uint_enc 4 n r (by omega)
      · rw [if_neg h1, if_neg h2, if_neg h3]
        show read_varint (255 :: (leEnc 8 n ++ r)) = _
        simp only [read_varint]
        norm_num
        exact read_le_uint_enc 8 n r (by omega)

theorem read_varbytes_packVarbytes (d r : List Nat) (h : d.length < 2 ^ 64) :
    read_varbytes (packVarbytes d ++ r) = .ok (d, r) := by
  unfold read_varbytes packVarbytes
  rw [List.append_assoc, read_varint_packVarint d.length (d ++ r) h]
  exact read_nbytes_exact d r

/-! ## Record round trips -/

theorem read_outpoint_serialize (t : TxOutPoint) (r : List Nat)
    (h : t.wf = true) : read_outpoint (t.serialize ++ r) = .ok (t, r) := by
  simp only [TxOutPoint.wf, Bool.and_eq_true, decide_eq_true_eq] at h
  obtain ⟨⟨hlen, _⟩, hidx⟩ := h
  have e1 : ∀ rest, read_nbytes 32 (t.hash ++ rest) = .ok (t.hash, rest) := by
    intro rest
    rw [← hlen]
    exact read_nbytes_exact t.hash rest
  have e2 : ∀ rest, read_le_uint 4 (leEnc 4 t.index ++ rest) =
      .ok (t.index, rest) :=
    fun rest => read_le_uint_enc 4 t.index rest (by omega)
  simp only [read_outpoint, TxOutPoint.serialize, List.append_assoc, e1, e2,
    bind, Except.bind]

theorem read_contract_out_serialize (c : TxContractOutput) (r : List Nat)
    (h : c.wf = true) : read_contract_out (c.serialize ++ r) = .ok (c, r) := by
  simp only [TxContractOutput.wf, Bool.and_eq_true, decide_eq_true_eq] at h
  obtain ⟨⟨⟨⟨⟨hty, hop⟩, hv⟩, hms⟩, _⟩, hml⟩ := h
  have e1 : ∀ rest, read_le_uint 8 (leEnc 8 c.type ++ rest) =
      .ok (c.type, rest) :=
    fun rest => read_le_uint_enc 8 c.type rest (by omega)
  have e2 : ∀ rest, read_outpoint (c.outpoint.serialize ++ rest) =
      .ok (c.outpoint, rest) :=
    fun rest => read_outpoint_serialize c.outpoint rest hop
  have e3 : ∀ rest, read_le_uint 32 (leEnc 32 c.value ++ rest) =
      .ok (c.value, rest) :=
    fun rest => read_le_uint_enc 32 c.value rest (by omega)
  have e4 : ∀ rest, read_le_uint 32 (leEnc 32 c.max_supply ++ rest) =
      .ok (c.max_supply, rest) :=
    fun rest => read_le_uint_enc 32 c.max_supply rest (by omega)
  have e5 : ∀ rest, read_varbytes (packVarbytes c.metadata ++ rest) =
      .ok (c.metadata, rest) :=
    fun rest => read_varbytes_packVarbytes c.metadata rest hml
  simp only [read_contract_out, TxContractOutput.serialize, List.append_assoc,
    e1, e2, e3, e4, e5, bind, Except.bind]

theorem read_input_serialize (t : TxInput) (r : List Nat)
    (h : t.wf = true) : read_input (t.serialize ++ r) = .ok (t, r) := by
  simp only [TxInput.wf, Bool.and_eq_true, decide_eq_true_eq] at h
  obtain ⟨⟨⟨⟨⟨hlen, _⟩, hidx⟩, _⟩, hsl⟩, hsq⟩ := h
  have e1 : ∀ rest, read_nbytes 32 (t.prev_hash ++ rest) =
      .ok (t.prev_hash, rest) := by
    intro rest
    rw [← hlen]
    exact read_nbytes_exact t.prev_hash rest
  have e2 : ∀ rest, read_le_uint 4 (leEnc 4 t.prev_idx ++ rest) =
      .ok (t.prev_idx, rest) :=
    fun rest => read_le_uint_enc 4 t.prev_idx rest (by omega)
  have e3 : ∀ rest, read_varbytes (packVarbytes t.script ++ rest) =
      .ok (t.script, rest) :=
    fun rest => read_varbytes_packVarbytes t.script rest hsl
  have e4 : ∀ rest, read_le_uint 4 (leEnc 4 t.sequence ++ rest) =
      .ok (t.sequence, rest) :=
    fun rest => read_le_uint_enc 4 t.sequence rest (by omega)
  simp only [read_input, TxInput.serialize, List.append_assoc, e1, e2, e3, e4,
    bind, Except.bind]

theorem read_output_ordinary (v : Int) (pk r : List Nat)
    (hlo : -((2 : Int) ^ 63) ≤ v) (hhi : v < (2 : Int) ^ 63)
    (htag : isContractTag ((v % ((2 : Int) ^ 64)).toNat) = false)
    (hpl : pk.length < 2 ^ 64) :
    read_output (packLeInt 8 v ++ (packVarbytes pk ++ r)) =
      .ok (⟨v, pk, none⟩, r) := by
  have hun : ((2 : Int) ^ 64) = ((256 : Int) ^ 8) := by norm_num
  have hu : (v % ((256 : Int) ^ 8)).toNat < 256 ^ 8 := by omega
  have e1 : ∀ rest, read_le_uint 8 (packLeInt 8 v ++ rest) =
      .ok ((v % ((256 : Int) ^ 8)).toNat, rest) := by
    intro rest
    unfold packLeInt
    rw [read_le_uint_enc 8 _ rest hu]
  have e2 : ∀ rest, read_le_int 8 (packLeInt 8 v ++ rest) =
      .ok (v, rest) :=
    fun rest => read_le_int_packLeInt 8 v rest (by omega) (by omega)
  have e3 : ∀ rest, read_varbytes (packVarbytes pk ++ rest) =
      .ok (pk, rest) :=
    fun rest => read_varbytes_packVarbytes pk rest hpl
  have htag8 : isContractTag ((v % ((256 : Int) ^ 8)).toNat) = false := by
    rw [hun] at htag
    exact htag
  simp only [read_output, List.append_assoc, e1, htag8, Bool.false_eq_true,
    if_false, e2, e3, bind, Except.bind]

theorem read_output_contract (c : TxContractOutput) (u : Nat) (pk r : List Nat)
    (hcwf : c.wf = true) (htag : isContractTag c.type = true)
    (hu : u < 2 ^ 64) (hpl : pk.length < 2 ^ 64) :
    read_output (c.serialize ++ (leEnc 8 u ++ (packVarbytes pk ++ r))) =
      .ok (⟨toSigned 8 u, pk, some c⟩, r) := by
  have epeek : ∀ rest, read_le_uint 8 (c.serialize ++ rest) =
      .ok (c.type, c.outpoint.serialize ++ (leEnc 32 c.value ++
        (leEnc 32 c.max_supply ++ (packVarbytes c.metadata ++ rest)))) := by
    intro rest
    have hty : c.type < 256 ^ 8 := by
      simp only [TxContractOutput.wf, Bool.and_eq_true, decide_eq_true_eq]
        at hcwf
      omega
    simp only [TxContractOutput.serialize, List.append_assoc]
    exact read_le_uint_enc 8 c.type _ hty
  have e1 : ∀ rest, read_contract_out (c.serialize ++ rest) =
      .ok (c, rest) :=
    fun rest => read_contract_out_serialize c rest hcwf
  have e2 : ∀ rest, read_le_int 8 (leEnc 8 u ++ rest) =
      .ok (toSigned 8 u, rest) := by
    intro rest
    simp only [read_le_int, read_le_uint_enc 8 u rest (by omega)]
  have e3 : ∀ rest, read_varbytes (packVarbytes pk ++ rest) =
      .ok (pk, rest) :=
    fun rest => read_varbytes_packVarbytes pk rest hpl
  simp only [read_output, List.append_assoc, epeek, htag, if_true, e1, e2, e3,
    bind, Except.bind]

theorem read_output_serialize (t : TxOutput) (r : List Nat)
    (h : t.wf = true)
    (hamend : ∀ c, t.contract = some c → t.value < (2 : Int) ^ 63) :
    read_output (t.serialize ++ r) = .ok (t, r) := by
  simp only [TxOutput.wf, Bool.and_eq_true, decide_eq_true_eq] at h
  obtain ⟨⟨_, hpl⟩, hrest⟩ := h
  cases hc : t.contract with
  | none =>
    rw [hc] at hrest
    simp only [Bool.and_eq_true, decide_eq_true_eq, Bool.not_eq_true',
      Bool.not_eq_true] at hrest
    obtain ⟨⟨hlo, hhi⟩, htag⟩ := hrest
    have h2 := read_output_ordinary t.value t.pk_script r hlo hhi htag hpl
    rw [TxOutput.serialize, hc, List.append_assoc]
    rw [h2, ← hc]
  | some c =>
    rw [hc] at hrest
    simp only [Bool.and_eq_true, decide_eq_true_eq] at hrest
    obtain ⟨⟨⟨hcwf, htag⟩, hv0⟩, _⟩ := hrest
    have hvhi : t.value < (2 : Int) ^ 63 := hamend c hc
    have h2 := read_output_contract c t.value.toNat t.pk_script r hcwf htag
      (by omega) hpl
    rw [toSigned_toNat 8 t.value hv0 (by push_cast; omega)] at h2
    rw [TxOutput.serialize, hc, List.append_assoc, List.append_assoc]
    rw [h2, ← hc]

theorem readCount_append {α : Type}
    (read : List Nat → Except PyErr (α × List Nat)) (ser : α → List Nat)
    (xs : List α) (r : List Nat)
    (h : ∀ x ∈ xs, ∀ rest, read (ser x ++ rest) = .ok (x, rest)) :
    readCount read xs.length ((xs.map ser).flatten ++ r) = .ok (xs, r) := by
  induction xs generalizing r with
  | nil => simp [readCount]
  | cons x xs ih =>
    simp only [List.map_cons, List.flatten_cons, List.length_cons,
      List.append_assoc]
    simp only [readCount, h x (by simp),
      ih r (fun y hy rest => h y (by simp [hy]) rest), bind, Except.bind]

theorem read_tx_serialize_append (tx : Tx) (r : List Nat) (h : tx.wf = true)
    (hamend : ∀ o ∈ tx.outputs, ∀ c, o.contract = some c →
      o.value < (2 : Int) ^ 63) :
    read_tx (tx.serialize ++ r) = .ok (tx, r) := by
  simp only [Tx.wf, Bool.and_eq_true, decide_eq_true_eq, List.all_eq_true]
    at h
  obtain ⟨⟨⟨⟨⟨⟨hvlo, hvhi⟩, hil⟩, hol⟩, hlt⟩, hiw⟩, how⟩ := h
  have e1 : ∀ rest, read_le_int 4 (packLeInt 4 tx.version ++ rest) =
      .ok (tx.version, rest) :=
    fun rest => read_le_int_packLeInt 4 tx.version rest (by omega) (by omega)
  have e2 : ∀ rest, read_inputs (packVarint tx.inputs.length ++
      ((tx.inputs.map TxInput.serialize).flatten ++ rest)) =
      .ok (tx.inputs, rest) := by
    intro rest
    simp only [read_inputs,
      read_varint_packVarint tx.inputs.length _ hil,
      readCount_append read_input TxInput.serialize tx.inputs rest
        (fun x hx rest2 => read_input_serialize x rest2 (hiw x hx)),
      bind, Except.bind]
  have e3 : ∀ rest, read_outputs (packVarint tx.outputs.length ++
      ((tx.outputs.map TxOutput.serialize).flatten ++ rest)) =
      .ok (tx.outputs, rest) := by
    intro rest
    simp only [read_outputs,
      read_varint_packVarint tx.outputs.length _ hol,
      readCount_append read_output TxOutput.serialize tx.outputs rest
        (fun x hx rest2 =>
          read_output_serialize x rest2 (how x hx) (hamend x hx)),
      bind, Except.bind]
  have e4 : ∀ rest, read_le_uint 4 (leEnc 4 tx.locktime ++ rest) =
      .ok (tx.locktime, rest) :=
    fun rest => read_le_uint_enc 4 tx.locktime rest (by omega)
  simp only [read_tx, Tx.serialize, List.append_assoc, e1, e2, e3, e4,
    bind, Except.bind]

end Deserializer

/-! ## Claims C2, C3, C8, C9 -/

/-- C2, counterexample to the claim as stated: for the claim's own example
layout `pk_script = <payload> OP_RETURN <20 state bytes> <LE u32 20>`
(here payload `[0x51]`, state all zero, total length 26), the claim
predicts the split point `pc = len - 24 = 2`, but `get_state` reads the
length word from positions `L-5..L-2` — not from the last 4 bytes — finds
`stateLen = 0x1400 = 5120`, fails the length requirement, and returns no
split. -/
theorem claim_C2_cex :
    Deserializer.get_state
        (81 :: (106 :: (List.replicate 20 0 ++ [20, 0, 0, 0]))) = none ∧
      Deserializer.get_state
        (81 :: (106 :: (List.replicate 20 0 ++ [20, 0, 0, 0]))) ≠ some 2 := by
  constructor
  · decide
  · decide

/-- C2 (amended): for every `pk_script` of length `L ≥ 6`,
`Deserializer.get_state` decodes the little-endian u32 `stateLen` from the
4 bytes at positions `L-5..L-1` (the bytes just before the final version
byte), and when `L ≥ 1 + stateLen + 4 + 1` and the byte at position
`pc - 1` equals `OP_RETURN` (0x6a) with `pc = L - 5 - stateLen`, it returns
the split point `pc`; in particular, for a pk_script that ends with
`OP_RETURN`, 20 state bytes, the LE u32 20 and one version byte, the split
point used by `get_hashoutputs` is `pc = len - 25`. -/
theorem claim_C2 (s : List Nat) (h6 : 6 ≤ s.length)
    (hlen : leDec 4 (s.drop (s.length - 5)) + 6 ≤ s.length)
    (hret : s.getD (s.length - 6 - leDec 4 (s.drop (s.length - 5))) 0 =
      OpCodes.OP_RETURN) :
    Deserializer.get_state s =
      some (s.length - 5 - leDec 4 (s.drop (s.length - 5))) := by
  unfold Deserializer.get_state
  rw [if_neg (by omega)]
  simp only []
  rw [if_neg (by omega)]
  have harith : s.length - 5 - leDec 4 (s.drop (s.length - 5)) - 1 =
      s.length - 6 - leDec 4 (s.drop (s.length - 5)) := by omega
  rw [if_pos (by rw [harith]; exact hret)]

/-- Witness for C2: a 27-byte script `0x51, OP_RETURN, 20 state bytes,
LE u32 20, version byte` splits at `pc = 2 = len - 25`. -/
theorem claim_C2_witness :
    Deserializer.get_state
        (81 :: (106 :: (List.replicate 20 3 ++ [20, 0, 0, 0, 1]))) =
      some 2 :=
  (claim_C2 (81 :: (106 :: (List.replicate 20 3 ++ [20, 0, 0, 0, 1])))
    (by decide) (by decide) (by decide)).trans (by decide)

/-- C3 (amended): for every well-formed transaction record (in-range field
values, contract outputs carrying a tag that satisfies the contract
predicate, non-contract outputs whose leading wire bytes do not) whose
contract outputs additionally have value below `2^63`, parsing the bytes
`Tx.serialize tx` with a fresh `Deserializer.read_tx` yields a record equal
to `tx`, consuming the whole buffer. -/
theorem claim_C3 (tx : Tx) (h : tx.wf = true)
    (hamend : ∀ o ∈ tx.outputs, o.contract.isSome = true →
      o.value < (2 : Int) ^ 63) :
    Deserializer.read_tx tx.serialize = .ok (tx, []) := by
  have h2 := Deserializer.read_tx_serialize_append tx [] h
    (fun o ho c hc => hamend o ho (by rw [hc]; rfl))
  simpa using h2

/-- Witness for C3: a concrete well-formed transaction with one input, one
ordinary output and one contract output round-trips. -/
theorem claim_C3_witness :
    Deserializer.read_tx (Tx.serialize ⟨1,
        [⟨List.replicate 32 0, 4294967295, [81], 0⟩],
        [⟨50, [106], none⟩,
         ⟨5, [0], some ⟨CONTRACT_FLAG + 1, ⟨List.replicate 32 2, 3⟩, 7, 9,
           [65]⟩⟩], 7⟩) =
      .ok (⟨1,
        [⟨List.replicate 32 0, 4294967295, [81], 0⟩],
        [⟨50, [106], none⟩,
         ⟨5, [0], some ⟨CONTRACT_FLAG + 1, ⟨List.replicate 32 2, 3⟩, 7, 9,
           [65]⟩⟩], 7⟩, []) :=
  claim_C3 _ (by decide) (by decide)

/-- C3, counterexample to the claim as stated: a well-formed transaction
whose single contract output has the in-range u64 value `2^63` does not
round-trip — `_read_output` decodes the value with `_read_le_int64`, so it
comes back as `-2^63`. -/
theorem claim_C3_cex :
    Tx.wf ⟨1, [], [⟨(2 : Int) ^ 63, [],
        some ⟨CONTRACT_FLAG + 1, ⟨List.replicate 32 2, 3⟩, 0, 0, []⟩⟩],
        0⟩ = true ∧
      Deserializer.read_tx (Tx.serialize ⟨1, [], [⟨(2 : Int) ^ 63, [],
        some ⟨CONTRACT_FLAG + 1, ⟨List.replicate 32 2, 3⟩, 0, 0, []⟩⟩],
        0⟩) =
        .ok (⟨1, [], [⟨-((2 : Int) ^ 63), [],
          some ⟨CONTRACT_FLAG + 1, ⟨List.replicate 32 2, 3⟩, 0, 0, []⟩⟩],
          0⟩, []) ∧
      (⟨1, [], [⟨-((2 : Int) ^ 63), [],
        some ⟨CONTRACT_FLAG + 1, ⟨List.replicate 32 2, 3⟩, 0, 0, []⟩⟩],
        0⟩ : Tx) ≠
      ⟨1, [], [⟨(2 : Int) ^ 63, [],
        some ⟨CONTRACT_FLAG + 1, ⟨List.replicate 32 2, 3⟩, 0, 0, []⟩⟩],
        0⟩ := by
  refine ⟨by decide, by decide, by decide⟩

/-- C8 (amended): `Deserializer._read_output` decodes the on-wire value
field as a little-endian signed i64 on BOTH the ordinary path and the
contract path (it is `TxOutput.serialize` that packs LE u64 on the contract
path and LE i64 on the ordinary path); consequently, for a contract output
whose 8 value bytes have the top bit set (`2^63 ≤ u < 2^64`), the parsed
value is the NEGATIVE two's-complement interpretation `toSigned 8 u`. -/
theorem claim_C8 :
    (∀ (v : Int) (pk r : List Nat),
      -((2 : Int) ^ 63) ≤ v → v < (2 : Int) ^ 63 →
      isContractTag ((v % ((2 : Int) ^ 64)).toNat) = false →
      pk.length < 2 ^ 64 →
      Deserializer.read_output (packLeInt 8 v ++ (packVarbytes pk ++ r)) =
        .ok (⟨v, pk, none⟩, r)) ∧
    (∀ (c : TxContractOutput) (u : Nat) (pk r : List Nat),
      c.wf = true → isContractTag c.type = true → u < 2 ^ 64 →
      pk.length < 2 ^ 64 →
      Deserializer.read_output
          (c.serialize ++ (leEnc 8 u ++ (packVarbytes pk ++ r))) =
        .ok (⟨toSigned 8 u, pk, some c⟩, r)) :=
  ⟨fun v pk r hlo hhi htag hpl =>
    Deserializer.read_output_ordinary v pk r hlo hhi htag hpl,
   fun c u pk r hcwf htag hu hpl =>
    Deserializer.read_output_contract c u pk r hcwf htag hu hpl⟩

/-- Witness for C8: the ordinary path at value `-1`, and the contract path
at the top-bit-set value bytes of `u = 2^63`, which parse back as `-2^63`. -/
theorem claim_C8_witness :
    Deserializer.read_output (packLeInt 8 (-1) ++ (packVarbytes [] ++ [])) =
        .ok (⟨-1, [], none⟩, []) ∧
      Deserializer.read_output
          (TxContractOutput.serialize
            ⟨CONTRACT_FLAG + 1, ⟨List.replicate 32 0, 0⟩, 0, 0, []⟩ ++
          (leEnc 8 (2 ^ 63) ++ (packVarbytes [] ++ []))) =
        .ok (⟨toSigned 8 (2 ^ 63), [], some ⟨CONTRACT_FLAG + 1,
          ⟨List.replicate 32 0, 0⟩, 0, 0, []⟩⟩, []) ∧
      toSigned 8 (2 ^ 63) = -((2 : Int) ^ 63) :=
  ⟨claim_C8.1 (-1) [] [] (by decide) (by decide) (by decide) (by decide),
   claim_C8.2 ⟨CONTRACT_FLAG + 1, ⟨List.replicate 32 0, 0⟩, 0, 0, []⟩
     (2 ^ 63) [] [] (by decide) (by decide) (by decide) (by decide),
   by decide⟩

/-- C8, counterexample to the claim as stated: a contract-path wire
encoding whose 8 value bytes are `00..00 80` (the u64 value `2^63`) parses
to value `-2^63`, not the non-negative unsigned interpretation `2^63`. -/
theorem claim_C8_cex :
    Deserializer.read_output
        (TxContractOutput.serialize
          ⟨CONTRACT_FLAG + 1, ⟨List.replicate 32 0, 0⟩, 0, 0, []⟩ ++
        (leEnc 8 (2 ^ 63) ++ (packVarbytes [] ++ []))) =
      .ok (⟨-((2 : Int) ^ 63), [], some ⟨CONTRACT_FLAG + 1,
        ⟨List.replicate 32 0, 0⟩, 0, 0, []⟩⟩, []) ∧
      -((2 : Int) ^ 63) ≠ (((2 : Nat) ^ 63 : Nat) : Int) := by
  refine ⟨by decide, by decide⟩

/-- C9 (amended): every `Deserializer` read primitive that attempts to read
past the end of the buffer fails with an exception rather than returning
data, and the failure propagates through the entry points — but NOT with a
single error kind: direct indexing (`_read_byte`, `_read_varint`'s lead
byte) raises `IndexError`, `_read_nbytes` raises `AssertionError`, and the
fixed-width readers raise `struct.error`. -/
theorem claim_C9 :
    (∀ b : List Nat, b.length < 1 →
      Deserializer.read_byte b = .error .indexError) ∧
    (∀ (n : Nat) (b : List Nat), b.length < n →
      Deserializer.read_nbytes n b = .error .assertionError) ∧
    (∀ (w : Nat) (b : List Nat), b.length < w →
      Deserializer.read_le_uint w b = .error .structError) ∧
    (∀ (w : Nat) (b : List Nat), b.length < w →
      Deserializer.read_le_int w b = .error .structError) ∧
    (∀ b : List Nat, b.length < 1 →
      Deserializer.read_varint b = .error .indexError) ∧
    (∀ b : List Nat, b.length < 4 →
      Deserializer.read_tx b = .error .structError) ∧
    (∀ (sha dsha : List Nat → List Nat) (b : List Nat), b.length < 4 →
      Deserializer.read_tx_and_hash sha dsha b = .error .structError) ∧
    (∀ (sha dsha : List Nat → List Nat) (b : List Nat), b.length < 1 →
      Deserializer.read_tx_block sha dsha b = .error .indexError) := by
  have hbyte : ∀ b : List Nat, b.length < 1 →
      Deserializer.read_byte b = .error .indexError := by
    intro b hb
    match b with
    | [] => rfl
    | x :: r => simp at hb
  have hle : ∀ (w : Nat) (b : List Nat), b.length < w →
      Deserializer.read_le_uint w b = .error .structError := by
    intro w b hb
    unfold Deserializer.read_le_uint
    rw [if_neg (by omega)]
  have hint : ∀ (w : Nat) (b : List Nat), b.length < w →
      Deserializer.read_le_int w b = .error .structError := by
    intro w b hb
    simp only [Deserializer.read_le_int, hle w b hb]
  have hvar : ∀ b : List Nat, b.length < 1 →
      Deserializer.read_varint b = .error .indexError := by
    intro b hb
    match b with
    | [] => rfl
    | x :: r => simp at hb
  have htx : ∀ b : List Nat, b.length < 4 →
      Deserializer.read_tx b = .error .structError := by
    intro b hb
    simp only [Deserializer.read_tx, hint 4 b hb, bind, Except.bind]
  refine ⟨hbyte, ?_, hle, hint, hvar, htx, ?_, ?_⟩
  · intro n b hb
    unfold Deserializer.read_nbytes
    rw [if_neg (by omega)]
  · intro sha dsha b hb
    simp only [Deserializer.read_tx_and_hash, htx b hb, bind, Except.bind]
  · intro sha dsha b hb
    simp only [Deserializer.read_tx_block, hvar b hb, bind, Except.bind]

/-- Witness for C9: the amended failure behavior at concrete short
buffers. -/
theorem claim_C9_witness :
    Deserializer.read_byte [] = .error .indexError ∧
      Deserializer.read_nbytes 3 [1] = .error .assertionError ∧
      Deserializer.read_le_uint 4 [1, 2] = .error .structError ∧
      Deserializer.read_le_int 8 [] = .error .structError ∧
      Deserializer.read_varint [] = .error .indexError ∧
      Deserializer.read_tx [0, 0] = .error .structError ∧
      Deserializer.read_tx_and_hash (fun x => x) (fun x => x) [] =
        .error .structError ∧
      Deserializer.read_tx_block (fun x => x) (fun x => x) [] =
        .error .indexError :=
  ⟨claim_C9.1 [] (by decide),
   claim_C9.2.1 3 [1] (by decide),
   claim_C9.2.2.1 4 [1, 2] (by decide),
   claim_C9.2.2.2.1 8 [] (by decide),
   claim_C9.2.2.2.2.1 [] (by decide),
   claim_C9.2.2.2.2.2.1 [0, 0] (by decide),
   claim_C9.2.2.2.2.2.2.1 (fun x => x) (fun x => x) [] (by decide),
   claim_C9.2.2.2.2.2.2.2 (fun x => x) (fun x => x) [] (by decide)⟩

/-- C9, counterexample to the claim as stated: reads past the end do NOT
all fail with one single error kind — `_read_byte` raises `IndexError`
while `_read_nbytes` raises `AssertionError` and the fixed-width readers
raise `struct.error`, three pairwise distinct kinds. -/
theorem claim_C9_cex :
    Deserializer.read_byte [] = .error .indexError ∧
      Deserializer.read_nbytes 1 [] = .error .assertionError ∧
      Deserializer.read_le_uint 2 [] = .error .structError ∧
      PyErr.indexError ≠ PyErr.assertionError ∧
      PyErr.assertionError ≠ PyErr.structError ∧
      PyErr.indexError ≠ PyErr.structError := by
  decide

/-! ## Script walker lemmas -/

namespace Script

theorem pushLen_lt (op : Nat) (rest : List Nat) (h : op < OpCodes.OP_PUSHDATA1) :
    pushLen op rest = some (op, rest) := by
  unfold pushLen
  rw [if_pos h]

theorem pushLen_tail_length (op dlen : Nat) (rest tail : List Nat)
    (h : pushLen op rest = some (dlen, tail)) : tail.length ≤ rest.length := by
  unfold pushLen at h
  split at h
  · cases h
    exact Nat.le_refl _
  · split at h
    · cases rest with
      | nil => cases h
      | cons d r =>
        cases h
        simp only [List.length_cons]
        omega
    · split at h
      · cases rest with
        | nil => cases h
        | cons a r =>
          cases r with
          | nil => cases h
          | cons b r2 =>
            cases h
            simp only [List.length_cons]
            omega
      · cases rest with
        | nil => cases h
        | cons a r =>
          cases r with
          | nil => cases h
          | cons b r2 =>
            cases r2 with
            | nil => cases h
            | cons c r3 =>
              cases r3 with
              | nil => cases h
              | cons d r4 =>
                cases h
                simp only [List.length_cons]
                omega

theorem zipWith_maskZero_false (xs : List Nat) :
    List.zipWith maskZero (List.replicate xs.length false) xs = xs := by
  induction xs with
  | nil => rfl
  | cons x xs ih =>
    simp only [List.length_cons, List.replicate_succ, List.zipWith_cons_cons,
      maskZero, if_false, ih, Bool.false_eq_true]

theorem zipWith_maskZero_true (xs : List Nat) :
    List.zipWith maskZero (List.replicate xs.length true) xs =
      List.replicate xs.length 0 := by
  induction xs with
  | nil => rfl
  | cons x xs ih =>
    simp only [List.length_cons, List.replicate_succ, List.zipWith_cons_cons,
      maskZero, if_true, ih]

/-- The three walks of `zero_refs`' framing agree: whenever the opcode walk
succeeds with opcode list `l`, `zeroRefsAux` succeeds with the
`requires_sig` flag true exactly when `l` holds a signature-check opcode,
`refMaskAux` succeeds with a mask exactly as long as the script, and — when
no PUSHDATA1/2/4 opcode occurs in the walk — the rewritten buffer is the
script with exactly the masked (reference-payload) positions zeroed. -/
theorem zeroRefs_walk (fuel : Nat) :
    ∀ (s l : List Nat), opcodeWalkAux fuel s = some l →
      ∃ out m,
        zeroRefsAux fuel s = some (out, l.any isSigCheckOp) ∧
        refMaskAux fuel s = some m ∧ m.length = s.length ∧
        ((∀ op ∈ l, isPushdataOp op = false) →
          out = List.zipWith maskZero m s) := by
  induction fuel with
  | zero =>
    intro s l h
    match s with
    | [] =>
      cases h
      exact ⟨[], [], rfl, rfl, rfl, fun _ => rfl⟩
  | succ fuel ih =>
    intro s l h
    match s with
    | [] =>
      cases h
      exact ⟨[], [], rfl, rfl, rfl, fun _ => rfl⟩
    | op :: rest =>
      simp only [opcodeWalkAux] at h
      by_cases hle : op ≤ OpCodes.OP_PUSHDATA4
      · rw [if_pos hle] at h
        cases hpl : pushLen op rest with
        | none => rw [hpl] at h; cases h
        | some dt =>
          obtain ⟨dlen, tail⟩ := dt
          rw [hpl] at h
          dsimp only at h
          by_cases hb : dlen ≤ tail.length
          · rw [if_pos hb] at h
            cases hwalk : opcodeWalkAux fuel (tail.drop dlen) with
            | none => rw [hwalk] at h; cases h
            | some l2 =>
              rw [hwalk] at h
              cases h
              obtain ⟨out2, m2, hz2, hm2, hlen2, hzip2⟩ :=
                ih (tail.drop dlen) l2 hwalk
              have htl : tail.length ≤ rest.length :=
                pushLen_tail_length op dlen rest tail hpl
              refine ⟨(op :: tail.take dlen) ++ out2,
                List.replicate (1 + (rest.length - tail.length) + dlen) false
                  ++ m2, ?_, ?_, ?_, ?_⟩
              · simp only [zeroRefsAux, if_pos hle, hpl, if_pos hb, hz2,
                  List.any_cons]
              · simp only [refMaskAux, if_pos hle, hpl, if_pos hb, hm2]
              · simp only [List.length_append, List.length_replicate, hlen2,
                  List.length_drop, List.length_cons]
                omega
              · intro hnopd
                have hop76 : op < OpCodes.OP_PUSHDATA1 := by
                  have h1 := hnopd op (List.mem_cons_self _ _)
                  simp only [isPushdataOp, OpCodes.OP_PUSHDATA1,
                    OpCodes.OP_PUSHDATA2, OpCodes.OP_PUSHDATA4,
                    Bool.or_eq_false_iff, decide_eq_false_iff_not] at h1
                  simp only [OpCodes.OP_PUSHDATA1]
                  simp only [OpCodes.OP_PUSHDATA4] at hle
                  omega
                rw [pushLen_lt op rest hop76] at hpl
                cases hpl
                have htake : (rest.take op).length = op := by
                  simp only [List.length_take]
                  omega
                have hzip3 : out2 = List.zipWith maskZero m2 (rest.drop op) :=
                  hzip2 (fun a ha => hnopd a (List.mem_cons_of_mem _ ha))
                have hcount : 1 + (rest.length - rest.length) + op = op + 1 := by
                  omega
                have hsplit : (op :: rest.take op) ++ rest.drop op =
                    op :: rest := by
                  simp [List.take_append_drop]
                rw [hcount, ← hsplit,
                  List.zipWith_append maskZero (List.replicate (op + 1) false)
                    m2 (op :: rest.take op) (rest.drop op)
                    (by simp only [List.length_replicate, List.length_cons,
                      htake]),
                  show List.replicate (op + 1) false =
                      List.replicate (op :: rest.take op).length false from by
                    simp only [List.length_cons, htake],
                  zipWith_maskZero_false, hzip3]
          · rw [if_neg hb] at h
            cases h
      · rw [if_neg hle] at h
        by_cases href : isRefOp op = true
        · rw [if_pos href] at h
          by_cases h36 : 36 ≤ rest.length
          · rw [if_pos h36] at h
            cases hwalk : opcodeWalkAux fuel (rest.drop 36) with
            | none => rw [hwalk] at h; cases h
            | some l2 =>
              rw [hwalk] at h
              cases h
              obtain ⟨out2, m2, hz2, hm2, hlen2, hzip2⟩ :=
                ih (rest.drop 36) l2 hwalk
              refine ⟨(op :: List.replicate 36 0) ++ out2,
                (false :: List.replicate 36 true) ++ m2, ?_, ?_, ?_, ?_⟩
              · simp only [zeroRefsAux, if_neg hle, if_pos href, if_pos h36,
                  hz2, List.any_cons]
              · simp only [refMaskAux, if_neg hle, if_pos href, if_pos h36,
                  hm2]
              · simp only [List.length_append, List.length_cons,
                  List.length_replicate, hlen2, List.length_drop]
                omega
              · intro hnopd
                have htake : (rest.take 36).length = 36 := by
                  simp only [List.length_take]
                  omega
                have hzip3 : out2 = List.zipWith maskZero m2 (rest.drop 36) :=
                  hzip2 (fun a ha => hnopd a (List.mem_cons_of_mem _ ha))
                have hsplit : (op :: rest.take 36) ++ rest.drop 36 =
                    op :: rest := by
                  simp [List.take_append_drop]
                have hfst : List.zipWith maskZero
                    (false :: List.replicate 36 true) (op :: rest.take 36) =
                    op :: List.replicate 36 0 := by
                  have h2 := zipWith_maskZero_true (rest.take 36)
                  rw [htake] at h2
                  rw [List.zipWith_cons_cons, h2]
                  rfl
                rw [← hsplit,
                  List.zipWith_append maskZero
                    (false :: List.replicate 36 true) m2
                    (op :: rest.take 36) (rest.drop 36)
                    (by simp only [List.length_cons, List.length_replicate,
                      htake]),
                  hfst, hzip3]
          · rw [if_neg h36] at h
            cases h
        · rw [if_neg href] at h
          cases hwalk : opcodeWalkAux fuel rest with
          | none => rw [hwalk] at h; cases h
          | some l2 =>
            rw [hwalk] at h
            cases h
            obtain ⟨out2, m2, hz2, hm2, hlen2, hzip2⟩ := ih rest l2 hwalk
            refine ⟨op :: out2, false :: m2, ?_, ?_, ?_, ?_⟩
            · simp only [zeroRefsAux, if_neg hle, if_neg href, hz2,
                List.any_cons]
            · simp only [refMaskAux, if_neg hle, if_neg href, hm2]
            · simp only [List.length_cons, hlen2]
            · intro hnopd
              have hzip3 : out2 = List.zipWith maskZero m2 rest :=
                hzip2 (fun a ha => hnopd a (List.mem_cons_of_mem _ ha))
              rw [List.zipWith_cons_cons, hzip3]
              rfl

theorem getOpsAux_flatten (fuel : Nat) :
    ∀ (s : List Nat) (items : List OpItem), s.length ≤ fuel →
      getOpsAux fuel s = some items →
      (∀ op pl, OpItem.push op pl ∈ items → op < OpCodes.OP_PUSHDATA1) →
      flattenOps items = s := by
  induction fuel with
  | zero =>
    intro s items hlen h hp
    match s with
    | [] =>
      cases h
      rfl
  | succ fuel ih =>
    intro s items hlen h hp
    match s with
    | [] =>
      cases h
      rfl
    | op :: rest =>
      simp only [getOpsAux] at h
      by_cases hle : op ≤ OpCodes.OP_PUSHDATA4
      · rw [if_pos hle] at h
        cases hpl : pushLen op rest with
        | none => rw [hpl] at h; cases h
        | some dt =>
          obtain ⟨dlen, tail⟩ := dt
          rw [hpl] at h
          dsimp only at h
          by_cases hb : dlen ≤ tail.length
          · rw [if_pos hb] at h
            cases hrec : getOpsAux fuel (tail.drop dlen) with
            | none => rw [hrec] at h; cases h
            | some items2 =>
              rw [hrec] at h
              cases h
              have hop : op < OpCodes.OP_PUSHDATA1 :=
                hp op (tail.take dlen) (List.mem_cons_self _ _)
              rw [pushLen_lt op rest hop] at hpl
              cases hpl
              have hflat : flattenOps items2 = rest.drop op :=
                ih (rest.drop op) items2 (by simp only [List.length_drop,
                  List.length_cons] at hlen ⊢; omega) hrec
                  (fun a b hm => hp a b (List.mem_cons_of_mem _ hm))
              simp only [flattenOps, hflat, List.cons.injEq, true_and]
              exact List.take_append_drop op rest
          · rw [if_neg hb] at h
            cases h
      · rw [if_neg hle] at h
        cases hrec : getOpsAux fuel rest with
        | none => rw [hrec] at h; cases h
        | some items2 =>
          rw [hrec] at h
          cases h
          have hflat : flattenOps items2 = rest :=
            ih rest items2 (by simp only [List.length_cons] at hlen; omega)
              hrec (fun a b hm => hp a b (List.mem_cons_of_mem _ hm))
          simp only [flattenOps, hflat]

end Script

/-! ## Claims C1 and C4 -/

/-- C1, evaluation at the failing input: on the script `OP_PUSHINPUTREF`
(0xd0) followed by 36 zero bytes, `Script.get_ops` does NOT consume a
36-byte payload — the `dlen = 36` branch is dead under the
`op <= OP_PUSHDATA4` guard — but emits the opcode bare and re-parses the 36
payload bytes as 36 further (empty-push) opcodes. -/
theorem claim_C1 :
    Script.get_ops (OpCodes.OP_PUSHINPUTREF :: List.replicate 36 0) =
      some (OpItem.bare OpCodes.OP_PUSHINPUTREF ::
        List.replicate 36 (OpItem.push 0 [])) ∧
    OpItem.bare OpCodes.OP_PUSHINPUTREF ::
        List.replicate 36 (OpItem.push 0 []) ≠
      [OpItem.push OpCodes.OP_PUSHINPUTREF (List.replicate 36 0)] := by
  refine ⟨by decide, by decide⟩

/-- C4, counterexample to the claim as stated: the script
`OP_PUSHDATA1 0x01 0x00` parses to the single item `(0x4c, [0x00])`, whose
opcode-plus-payload concatenation `[0x4c, 0x00]` loses the length byte and
is not the input. -/
theorem claim_C4_cex :
    Script.get_ops [76, 1, 0] = some [OpItem.push 76 [0]] ∧
      Script.flattenOps [OpItem.push 76 [0]] ≠ [76, 1, 0] := by
  refine ⟨by decide, by decide⟩

/-- C4 (amended): for every script `s` on which `Script.get_ops` succeeds
AND whose items carry no PUSHDATA1/2/4 opcode (every push is a direct push
`0..75`, whose length prefix is the opcode byte itself), concatenating, in
order, the opcode byte of each returned op-item followed by its payload
bytes reconstructs exactly the input `s`; the reference opcodes contribute
their bare opcode byte, their payload bytes reappearing as further
items. -/
theorem claim_C4 (s : List Nat) (items : List OpItem)
    (h : Script.get_ops s = some items)
    (hp : Script.noPushdataItems items = true) :
    Script.flattenOps items = s := by
  have hp2 : ∀ op pl, OpItem.push op pl ∈ items →
      op < OpCodes.OP_PUSHDATA1 := by
    intro op pl hm
    have h2 := List.all_eq_true.mp hp _ hm
    simpa using h2
  exact Script.getOpsAux_flatten s.length s items (Nat.le_refl _) h hp2

/-- Witness for C4: a direct push, a bare reference opcode and a bare
sig-check opcode concatenate back to the script. -/
theorem claim_C4_witness :
    Script.get_ops [2, 9, 9, 208, 172] =
      some [OpItem.push 2 [9, 9], OpItem.bare 208, OpItem.bare 172] ∧
    Script.flattenOps [OpItem.push 2 [9, 9], OpItem.bare 208,
      OpItem.bare 172] = [2, 9, 9, 208, 172] :=
  ⟨by decide, claim_C4 _ _ (by decide) (by decide)⟩

/-! ## Claim C7 -/

namespace Script

theorem getPushInputRefsAux_interleaved (fuel : Nat) :
    ∀ (s : List Nat) (a n g : List (List Nat)),
      getPushInputRefsAux fuel s = some (a, n, g) → Interleaved a n g := by
  induction fuel with
  | zero =>
    intro s a n g h
    match s with
    | [] =>
      cases h
      exact .nil
  | succ fuel ih =>
    intro s a n g h
    match s with
    | [] =>
      cases h
      exact .nil
    | op :: rest =>
      simp only [getPushInputRefsAux] at h
      by_cases hle : op ≤ OpCodes.OP_PUSHDATA4
      · rw [if_pos hle] at h
        cases hpl : pushLen op rest with
        | none => rw [hpl] at h; cases h
        | some dt =>
          obtain ⟨dlen, tail⟩ := dt
          rw [hpl] at h
          dsimp only at h
          by_cases hb : dlen ≤ tail.length
          · rw [if_pos hb] at h
            exact ih (tail.drop dlen) a n g h
          · rw [if_neg hb] at h
            cases h
      · rw [if_neg hle] at h
        by_cases href : isRefOp op = true
        · rw [if_pos href] at h
          by_cases h36 : 36 ≤ rest.length
          · rw [if_pos h36] at h
            cases hrec : getPushInputRefsAux fuel (rest.drop 36) with
            | none => rw [hrec] at h; cases h
            | some res =>
              obtain ⟨a2, n2, g2⟩ := res
              rw [hrec] at h
              dsimp only at h
              by_cases hd0 : op = OpCodes.OP_PUSHINPUTREF
              · rw [if_pos hd0] at h
                cases h
                exact .norm _ (ih (rest.drop 36) _ _ _ hrec)
              · rw [if_neg hd0] at h
                by_cases hd8 : op = OpCodes.OP_PUSHINPUTREFSINGLETON
                · rw [if_pos hd8] at h
                  cases h
                  exact .single _ (ih (rest.drop 36) _ _ _ hrec)
                · rw [if_neg hd8] at h
                  cases h
                  exact ih (rest.drop 36) a n g hrec
          · rw [if_neg h36] at h
            cases h
        · rw [if_neg href] at h
          exact ih rest a n g h

theorem getPushInputRefsAux_mono (f1 : Nat) :
    ∀ (f2 : Nat) (s : List Nat), s.length ≤ f1 → s.length ≤ f2 →
      getPushInputRefsAux f1 s = getPushInputRefsAux f2 s := by
  induction f1 with
  | zero =>
    intro f2 s h1 h2
    match s with
    | [] => cases f2 <;> rfl
  | succ f1 ih =>
    intro f2 s h1 h2
    match s with
    | [] => cases f2 <;> rfl
    | op :: rest =>
      cases f2 with
      | zero => simp at h2
      | succ f2 =>
        simp only [List.length_cons] at h1 h2
        simp only [getPushInputRefsAux]
        by_cases hle : op ≤ OpCodes.OP_PUSHDATA4
        · simp only [if_pos hle]
          cases hpl : pushLen op rest with
          | none => rfl
          | some dt =>
            obtain ⟨dlen, tail⟩ := dt
            have htl := pushLen_tail_length op dlen rest tail hpl
            dsimp only
            by_cases hb : dlen ≤ tail.length
            · simp only [if_pos hb]
              rw [ih f2 (tail.drop dlen)
                (by simp only [List.length_drop]; omega)
                (by simp only [List.length_drop]; omega)]
            · simp only [if_neg hb]
        · simp only [if_neg hle]
          by_cases href : isRefOp op = true
          · simp only [if_pos href]
            by_cases h36 : 36 ≤ rest.length
            · simp only [if_pos h36]
              rw [ih f2 (rest.drop 36)
                (by simp only [List.length_drop]; omega)
                (by simp only [List.length_drop]; omega)]
            · simp only [if_neg h36]
          · simp only [if_neg href]
            exact ih f2 rest (by omega) (by omega)

end Script

/-- C7: for every script on which `Script.get_push_input_refs` succeeds,
the returned `all_refs` list is exactly the encounter-order interleaving of
`normal_refs` (payloads of `OP_PUSHINPUTREF`) and `singleton_refs`
(payloads of `OP_PUSHINPUTREFSINGLETON`); occurrences of
`OP_REQUIREINPUTREF`, `OP_DISALLOWPUSHINPUTREF`,
`OP_DISALLOWPUSHINPUTREFSIBLING` each advance the walk past their 36-byte
payload while contributing to none of the three lists; and on a truncated
payload the function fails, so no partial result escapes. -/
theorem claim_C7 :
    (∀ (s : List Nat) (a n g : List (List Nat)),
      Script.get_push_input_refs s = some (a, n, g) →
        Script.Interleaved a n g) ∧
    (∀ (op : Nat) (p rest : List Nat),
      (op = OpCodes.OP_REQUIREINPUTREF ∨
       op = OpCodes.OP_DISALLOWPUSHINPUTREF ∨
       op = OpCodes.OP_DISALLOWPUSHINPUTREFSIBLING) → p.length = 36 →
      Script.get_push_input_refs (op :: (p ++ rest)) =
        Script.get_push_input_refs rest) ∧
    (∀ (op : Nat) (p : List Nat), Script.isRefOp op = true →
      p.length < 36 → Script.get_push_input_refs (op :: p) = none) := by
  refine ⟨?_, ?_, ?_⟩
  · intro s a n g h
    exact Script.getPushInputRefsAux_interleaved s.length s a n g h
  · intro op p rest hop hp36
    have hle : ¬ op ≤ OpCodes.OP_PUSHDATA4 := by
      rcases hop with h | h | h <;> subst h <;> decide
    have href : Script.isRefOp op = true := by
      rcases hop with h | h | h <;> subst h <;> decide
    have hd0 : ¬ op = OpCodes.OP_PUSHINPUTREF := by
      rcases hop with h | h | h <;> subst h <;> decide
    have hd8 : ¬ op = OpCodes.OP_PUSHINPUTREFSINGLETON := by
      rcases hop with h | h | h <;> subst h <;> decide
    have h36 : 36 ≤ (p ++ rest).length := by
      simp only [List.length_append]
      omega
    have hdrop : (p ++ rest).drop 36 = rest := by
      rw [← hp36]
      exact List.drop_left p rest
    unfold Script.get_push_input_refs
    simp only [List.length_cons, Script.getPushInputRefsAux, if_neg hle,
      if_pos href, if_pos h36, hdrop]
    rw [Script.getPushInputRefsAux_mono ((p ++ rest).length) rest.length rest
      (by simp only [List.length_append]; omega) (Nat.le_refl _)]
    cases Script.getPushInputRefsAux rest.length rest with
    | none => rfl
    | some res =>
      obtain ⟨a, n, g⟩ := res
      dsimp only
      rw [if_neg hd0, if_neg hd8]
  · intro op p href hlt
    have hle : ¬ op ≤ OpCodes.OP_PUSHDATA4 := by
      simp only [Script.isRefOp, OpCodes.OP_PUSHINPUTREF,
        OpCodes.OP_REQUIREINPUTREF, OpCodes.OP_DISALLOWPUSHINPUTREF,
        OpCodes.OP_DISALLOWPUSHINPUTREFSIBLING,
        OpCodes.OP_PUSHINPUTREFSINGLETON, OpCodes.OP_PUSHDATA4,
        Bool.or_eq_true, decide_eq_true_eq] at href ⊢
      omega
    unfold Script.get_push_input_refs
    simp only [List.length_cons, Script.getPushInputRefsAux, if_neg hle,
      if_pos href, if_neg (show ¬ 36 ≤ p.length by omega)]

/-- Witness for C7: a script with one `OP_PUSHINPUTREF` payload A and one
`OP_PUSHINPUTREFSINGLETON` payload B interleaves `all = [A, B]` from
`normal = [A]` and `singleton = [B]`; an `OP_REQUIREINPUTREF` occurrence is
skipped contributing nothing; a 35-byte payload truncates. -/
theorem claim_C7_witness :
    Script.Interleaved [List.replicate 36 7, List.replicate 36 9]
        [List.replicate 36 7] [List.replicate 36 9] ∧
      Script.get_push_input_refs (209 :: (List.replicate 36 5 ++ [0])) =
        Script.get_push_input_refs [0] ∧
      Script.get_push_input_refs (216 :: List.replicate 35 1) = none :=
  ⟨claim_C7.1 (208 :: (List.replicate 36 7 ++ (216 :: List.replicate 36 9)))
      [List.replicate 36 7, List.replicate 36 9] [List.replicate 36 7]
      [List.replicate 36 9] (by decide),
   claim_C7.2.1 209 (List.replicate 36 5) [0] (Or.inl rfl) (by decide),
   claim_C7.2.2 216 (List.replicate 35 1) (by decide) (by decide)⟩

/-! ## Claims C5, C6, C10 -/

/-- C5, counterexample to the claim as stated: the script
`OP_PUSHDATA1 0x00 OP_CHECKSIG` parses and contains a sig-check opcode, but
`zero_refs` returns a SHORTER buffer — the PUSHDATA1 length byte is
consumed without being copied — so the result is not a same-length buffer
with all non-reference-payload positions intact. -/
theorem claim_C5_cex :
    Script.zero_refs [76, 0, 172] = some [76, 172] ∧
      ([76, 172] : List Nat).length ≠ ([76, 0, 172] : List Nat).length := by
  refine ⟨by decide, by decide⟩

/-- C5 (amended): for every script `s` that parses under the `zero_refs`
walk, contains at least one of OP_CHECKSIG/OP_CHECKSIGVERIFY/
OP_CHECKMULTISIG/OP_CHECKMULTISIGVERIFY at an opcode position, and contains
no OP_PUSHDATA1/2/4 at an opcode position, `Script.zero_refs s` returns a
buffer of the same length in which, for every occurrence of the five
reference opcodes, the 36 payload bytes are replaced by 36 zero bytes
(`refMask s` is `true` exactly at those positions), and every other byte
position is bit-identical to `s`. -/
theorem claim_C5 (s l : List Nat) (m : List Bool)
    (h : Script.opcodeWalk s = some l)
    (hsig : l.any Script.isSigCheckOp = true)
    (hnopd : l.all (fun op => !Script.isPushdataOp op) = true)
    (hm : Script.refMask s = some m) :
    m.length = s.length ∧
      Script.zero_refs s = some (List.zipWith Script.maskZero m s) := by
  obtain ⟨out, m2, hz, hm2, hlen, hzip⟩ := Script.zeroRefs_walk s.length s l h
  simp only [Script.refMask] at hm
  rw [hm2] at hm
  cases hm
  refine ⟨hlen, ?_⟩
  rw [hsig] at hz
  simp only [Script.zero_refs, hz, if_true]
  rw [hzip]
  intro a ha
  have h2 := List.all_eq_true.mp hnopd a ha
  simpa using h2

/-- Witness for C5: `OP_PUSHINPUTREF`, 36 payload bytes `0x11`,
`OP_CHECKSIG`: the payload is zeroed, the two opcode bytes survive, and the
length is preserved. -/
theorem claim_C5_witness :
    (false :: (List.replicate 36 true ++ [false]) : List Bool).length =
        (208 :: (List.replicate 36 17 ++ [172]) : List Nat).length ∧
      Script.zero_refs (208 :: (List.replicate 36 17 ++ [172])) =
        some (List.zipWith Script.maskZero
          (false :: (List.replicate 36 true ++ [false]))
          (208 :: (List.replicate 36 17 ++ [172]))) :=
  claim_C5 (208 :: (List.replicate 36 17 ++ [172])) [208, 172]
    (false :: (List.replicate 36 true ++ [false]))
    (by decide) (by decide) (by decide) (by decide)

/-- C6: for every script `s` that parses under the `zero_refs` walk and
contains none of the four signature-check opcodes at an opcode position,
`Script.zero_refs s` returns the original input `s` unchanged, even when
`s` contains reference opcodes. -/
theorem claim_C6 (s l : List Nat) (h : Script.opcodeWalk s = some l)
    (hn : l.all (fun op => !Script.isSigCheckOp op) = true) :
    Script.zero_refs s = some s := by
  obtain ⟨out, m, hz, hm, hlen, hzip⟩ := Script.zeroRefs_walk s.length s l h
  have hany : l.any Script.isSigCheckOp = false := by
    cases hcase : l.any Script.isSigCheckOp with
    | false => rfl
    | true =>
      obtain ⟨x, hxm, hxp⟩ := List.any_eq_true.mp hcase
      have h2 := List.all_eq_true.mp hn x hxm
      rw [hxp] at h2
      cases h2
  rw [hany] at hz
  simp only [Script.zero_refs, hz, Bool.false_eq_true, if_false]

/-- Witness for C6: the script `OP_PUSHINPUTREFSINGLETON` plus a 36-byte
payload (scenario 6 of the spec) has no sig-check opcode and comes back
unchanged. -/
theorem claim_C6_witness :
    Script.zero_refs (216 :: List.replicate 36 7) =
      some (216 :: List.replicate 36 7) :=
  claim_C6 (216 :: List.replicate 36 7) [216] (by decide) (by decide)

/-- C10 (implicit): `Script.zero_refs` detects signature-check usage only
at opcode positions of the walk; a script that parses and carries
sig-check byte values 0xac-0xaf only INSIDE push payloads or reference
payloads (some byte of `s` is such a value, yet no opcode of the walk is)
is returned byte-identical. -/
theorem claim_C10 (s l : List Nat) (h : Script.opcodeWalk s = some l)
    (hocc : s.any Script.isSigCheckOp = true)
    (hn : l.all (fun op => !Script.isSigCheckOp op) = true) :
    Script.zero_refs s = some s := by
  clear hocc
  obtain ⟨out, m, hz, hm, hlen, hzip⟩ := Script.zeroRefs_walk s.length s l h
  have hany : l.any Script.isSigCheckOp = false := by
    cases hcase : l.any Script.isSigCheckOp with
    | false => rfl
    | true =>
      obtain ⟨x, hxm, hxp⟩ := List.any_eq_true.mp hcase
      have h2 := List.all_eq_true.mp hn x hxm
      rw [hxp] at h2
      cases h2
  rw [hany] at hz
  simp only [Script.zero_refs, hz, Bool.false_eq_true, if_false]

/-- Witness for C10: a direct push whose payload byte is 0xac
(OP_CHECKSIG's value) followed by `OP_PUSHINPUTREF` whose 36 payload bytes
are all 0xac: the walk sees opcodes `[0x01, 0xd0]` only, and the script is
returned unchanged although 0xac occurs 37 times in it. -/
theorem claim_C10_witness :
    Script.zero_refs (1 :: (172 :: (208 :: List.replicate 36 172))) =
      some (1 :: (172 :: (208 :: List.replicate 36 172))) :=
  claim_C10 (1 :: (172 :: (208 :: List.replicate 36 172))) [1, 208]
    (by decide) (by decide) (by decide)

end ElectrumX
